import Mathlib

/-!
# Verification of the Protein Property Calculator (`ProteinProps.py`)

Shallow embedding of the `ProteinParam` class.  Protein sequences are
modelled as lists of characters (Python `str`); `str.upper()` is modelled
by ASCII `Char.toUpper`.  Exact arithmetic replaces Python floats: the
table-driven quantities (molecular weight, extinction coefficients) live
in `ℚ`, and the pI charge scan, whose `10**pH` terms are irrational, lives
in `ℝ` with `10 ^ (q : ℝ)` (`Real.rpow`) standing for `10**q`.
-/

set_option maxRecDepth 8192

namespace ProteinProps

/-- The 20 canonical residues in the insertion order of the `aa2mw`
dictionary; `self.AminoList = list(self.aa2mw.keys())`. -/
def aminoList : List Char :=
  ['A', 'G', 'M', 'S', 'C', 'H', 'N', 'T', 'D', 'I',
   'P', 'V', 'E', 'K', 'Q', 'W', 'F', 'L', 'R', 'Y']

/-- The `aa2mw` molecular-weight table (Da). -/
def aa2mw : Char → ℚ
  | 'A' => 89.093  | 'G' => 75.067  | 'M' => 149.211 | 'S' => 105.093
  | 'C' => 121.158 | 'H' => 155.155 | 'N' => 132.118 | 'T' => 119.119
  | 'D' => 133.103 | 'I' => 131.173 | 'P' => 115.131 | 'V' => 117.146
  | 'E' => 147.129 | 'K' => 146.188 | 'Q' => 146.145 | 'W' => 204.225
  | 'F' => 165.189 | 'L' => 131.173 | 'R' => 174.201 | 'Y' => 181.189
  | _ => 0

/-- The water molecular weight constant `mwH2O`. -/
def mwH2O : ℚ := 18.015

/-- Keys of the `aa2abs280` dictionary, in insertion order. -/
def absList : List Char := ['Y', 'W', 'C', 'F']

/-- The `aa2abs280` absorbance table. -/
def aa2abs280 : Char → ℚ
  | 'Y' => 1490 | 'W' => 5500 | 'C' => 125 | 'F' => 200
  | _ => 0

/-- Keys of the `aa2chargePos` dictionary, in insertion order. -/
def posList : List Char := ['K', 'R', 'H']

/-- The `aa2chargePos` pKa table. -/
def aa2chargePos : Char → ℚ
  | 'K' => 10.5 | 'R' => 12.4 | 'H' => 6
  | _ => 0

/-- Keys of the `aa2chargeNeg` dictionary, in insertion order. -/
def negList : List Char := ['D', 'E', 'C', 'Y']

/-- The `aa2chargeNeg` pKa table. -/
def aa2chargeNeg : Char → ℚ
  | 'D' => 3.86 | 'E' => 4.25 | 'C' => 8.33 | 'Y' => 10
  | _ => 0

/-- N-terminus pKa constant `aaNterm`. -/
def aaNterm : ℚ := 9.69

/-- C-terminus pKa constant `aaCterm`. -/
def aaCterm : ℚ := 2.34

/-- `protein.upper()`, modelled as ASCII per-character uppercasing. -/
def upperChain (protein : List Char) : List Char := protein.map Char.toUpper

/-- `[self.Chain.count(aa) for aa in self.AminoList]`. -/
def aaCountOf (chain : List Char) : List ℕ :=
  aminoList.map (fun aa => chain.count aa)

/-- The state of a `ProteinParam` instance.  The transient `None`
placeholders written in `__init__` are immediately overwritten by the
`self.aaCount()` call at the end of `__init__`, so the constructed state
always carries the computed lists. -/
structure ProteinParam where
  Chain : List Char
  StringLength : ℕ
  AminoCount : List ℕ
  AADict : List (Char × ℕ)
  deriving Repr, DecidableEq

/-- `ProteinParam(protein)`: normalize case, record length, and run the
eager `aaCount()` call of `__init__`. -/
def mkProteinParam (protein : List Char) : ProteinParam :=
  let chain := upperChain protein
  { Chain := chain
    StringLength := protein.length
    AminoCount := aaCountOf chain
    AADict := aminoList.zip (aaCountOf chain) }

/-- `aaCount()`: recompute `self.AminoCount` and `self.AADict` from the
stored chain, returning the updated state and `sum(self.AminoCount)`. -/
def aaCount (p : ProteinParam) : ProteinParam × ℕ :=
  let ac := aaCountOf p.Chain
  ({ p with AminoCount := ac, AADict := aminoList.zip ac }, ac.sum)

/-- `aaComposition()`: returns `self.AADict`. -/
def aaComposition (p : ProteinParam) : List (Char × ℕ) := p.AADict

/-- Dictionary lookup `d.get(aa, 0)` (also models `d[aa]`, which in the
source is only used at keys guaranteed to be present). -/
def lookupD (d : List (Char × ℕ)) (aa : Char) : ℕ :=
  ((d.find? (fun q => q.1 = aa)).map Prod.snd).getD 0

/-- `molecularWeight()`: `mwH2O + Σ count·(weight − mwH2O)` over
`zip(self.AminoList, self.AminoCount)`. -/
def molecularWeight (p : ProteinParam) : ℚ :=
  mwH2O +
    ((aminoList.zip p.AminoCount).map
      (fun q => (q.2 : ℚ) * (aa2mw q.1 - mwH2O))).sum

/-- `molarExtinction()`: `Σ AADict[aa]·aa2abs280[aa]` over the keys of
`aa2abs280`. -/
def molarExtinction (p : ProteinParam) : ℚ :=
  (absList.map (fun aa => (lookupD p.AADict aa : ℚ) * aa2abs280 aa)).sum

/-- `massExtinction()`: `molarExtinction()/mw` when `mw` is nonzero,
else `0.0`. -/
def massExtinction (p : ProteinParam) : ℚ :=
  if molecularWeight p = 0 then 0 else molarExtinction p / molecularWeight p

/-- `10**q` on exact reals. -/
noncomputable def exp10 (q : ℚ) : ℝ := (10 : ℝ) ^ (q : ℝ)

/-- The positive-charge sum of `_charge_` at a given pH: the
`aa2chargePos` terms plus the N-terminus term. -/
noncomputable def posCharge (p : ProteinParam) (ph : ℚ) : ℝ :=
  ((posList.map (fun aa =>
      (lookupD p.AADict aa : ℝ) * exp10 (aa2chargePos aa) /
        (exp10 (aa2chargePos aa) + exp10 ph))).sum)
    + exp10 aaNterm / (exp10 aaNterm + exp10 ph)

/-- The negative-charge sum of `_charge_` at a given pH: the
`aa2chargeNeg` terms plus the C-terminus term. -/
noncomputable def negCharge (p : ProteinParam) (ph : ℚ) : ℝ :=
  ((negList.map (fun aa =>
      (lookupD p.AADict aa : ℝ) * exp10 ph /
        (exp10 (aa2chargeNeg aa) + exp10 ph))).sum)
    + exp10 ph / (exp10 aaCterm + exp10 ph)

/-- `net_charge = abs(pos_charge - neg_charge)` at one pH sample. -/
noncomputable def netCharge (p : ProteinParam) (ph : ℚ) : ℝ :=
  |posCharge p ph - negCharge p ph|

/-- The `charges` list built by the scan loop `for n in range(1400)` with
`ph = n * 0.01`. -/
noncomputable def chargeList (p : ProteinParam) : List ℝ :=
  (List.range 1400).map (fun (n : ℕ) => netCharge p ((n : ℚ) * 0.01))

/-- The `ph_values` list built by the scan loop. -/
def phList : List ℚ :=
  (List.range 1400).map (fun (n : ℕ) => (n : ℚ) * 0.01)

/-- Python's `min` on a list (the value; first element wins ties, which
does not affect the value). -/
noncomputable def listMin : List ℝ → ℝ
  | [] => 0
  | a :: l => l.foldl min a

open Classical in
/-- Python's `list.index(x)`: index of the first occurrence of `x`. -/
noncomputable def indexOfR (x : ℝ) : List ℝ → ℕ
  | [] => 0
  | a :: l => if a = x then 0 else indexOfR x l + 1

/-- `_charge_()`: `ph_values[charges.index(min(charges))]`. -/
noncomputable def charge (p : ProteinParam) : ℚ :=
  phList.getD (indexOfR (listMin (chargeList p)) (chargeList p)) 0

/-- `pI()`: delegates to `_charge_()`. -/
noncomputable def pI (p : ProteinParam) : ℚ := charge p

/-- The net charge with its sign (`pos_charge - neg_charge`), the
quantity whose absolute value the scan minimizes. -/
noncomputable def signedCharge (p : ProteinParam) (ph : ℚ) : ℝ :=
  posCharge p ph - negCharge p ph

/-- The golden-value test sequence of the spec (§8). -/
def seqC2 : List Char :=
  ['M', 'T', 'E', 'I', 'T', 'A', 'A', 'M', 'V', 'K',
   'E', 'L', 'R', 'E', 'S', 'T', 'G', 'A', 'G', 'A',
   'M', 'K', 'I', 'A', 'E', 'S', 'R', 'Q', 'Q']

/-- Modelled from the spec's formula text (§4.1, "isoelectric point"):
the net-charge magnitude at a pH sample, written as the spec writes it —
sums over the named residue sets with `count(residue)` coefficients and
the two terminus terms.  Used to state refinement of the spec formula by
the code's `_charge_` scan. -/
noncomputable def netChargeSpec (protein : List Char) (ph : ℚ) : ℝ :=
  |((∑ aa ∈ ({'K', 'R', 'H'} : Finset Char),
      ((upperChain protein).count aa : ℝ) * exp10 (aa2chargePos aa) /
        (exp10 (aa2chargePos aa) + exp10 ph))
    + exp10 9.69 / (exp10 9.69 + exp10 ph))
  - ((∑ aa ∈ ({'D', 'E', 'C', 'Y'} : Finset Char),
      ((upperChain protein).count aa : ℝ) * exp10 ph /
        (exp10 (aa2chargeNeg aa) + exp10 ph))
    + exp10 ph / (exp10 2.34 + exp10 ph))|

/-! ### Basic lemmas about the embedded operations -/

theorem zip_self_map {α β : Type} (l : List α) (f : α → β) :
    l.zip (l.map f) = l.map (fun a => (a, f a)) := by
  induction l with
  | nil => rfl
  | cons a t ih => simp [ih]

theorem lookupD_zip_map (l : List Char) (f : Char → ℕ) (aa : Char)
    (h : aa ∈ l) : lookupD (l.zip (l.map f)) aa = f aa := by
  induction l with
  | nil => cases h
  | cons b t ih =>
    by_cases hb : b = aa
    · subst hb; simp [lookupD]
    · have ht : aa ∈ t := by
        rcases List.mem_cons.1 h with h' | h'
        · exact absurd h'.symm hb
        · exact h'
      simpa [lookupD, List.find?, hb] using ih ht

theorem AADict_mk (s : List Char) :
    (mkProteinParam s).AADict =
      aminoList.zip (aminoList.map (fun aa => (upperChain s).count aa)) := rfl

theorem lookupD_mk (s : List Char) (aa : Char) (h : aa ∈ aminoList) :
    lookupD (mkProteinParam s).AADict aa = (upperChain s).count aa := by
  rw [AADict_mk]
  exact lookupD_zip_map _ _ _ h

theorem molecularWeight_mk (s : List Char) :
    molecularWeight (mkProteinParam s) =
      mwH2O + (aminoList.map
        (fun aa => ((upperChain s).count aa : ℚ) * (aa2mw aa - mwH2O))).sum := by
  unfold molecularWeight mkProteinParam aaCountOf
  rw [zip_self_map, List.map_map]
  rfl

theorem molarExtinction_mk (s : List Char) :
    molarExtinction (mkProteinParam s) =
      (absList.map
        (fun aa => ((upperChain s).count aa : ℚ) * aa2abs280 aa)).sum := by
  unfold molarExtinction
  have h : ∀ aa ∈ absList, aa ∈ aminoList := by decide
  have : ∀ aa ∈ absList,
      (lookupD (mkProteinParam s).AADict aa : ℚ) * aa2abs280 aa =
        ((upperChain s).count aa : ℚ) * aa2abs280 aa := by
    intro aa ha
    rw [lookupD_mk s aa (h aa ha)]
  exact congrArg List.sum (List.map_congr_left this)

/-- Every residue weight in the table is at least the water weight. -/
theorem aa2mw_ge_water : ∀ aa ∈ aminoList, mwH2O ≤ aa2mw aa := by
  intro aa ha
  fin_cases ha <;> norm_num [aa2mw, mwH2O]

theorem molecularWeight_ge_water (s : List Char) :
    mwH2O ≤ molecularWeight (mkProteinParam s) := by
  rw [molecularWeight_mk]
  have h0 : (0 : ℚ) ≤ (aminoList.map
      (fun aa => ((upperChain s).count aa : ℚ) * (aa2mw aa - mwH2O))).sum := by
    apply List.sum_nonneg
    intro x hx
    rcases List.mem_map.1 hx with ⟨aa, haa, rfl⟩
    have h1 : (0 : ℚ) ≤ ((upperChain s).count aa : ℚ) := by positivity
    have h2 : (0 : ℚ) ≤ aa2mw aa - mwH2O := by
      have := aa2mw_ge_water aa haa
      linarith
    exact mul_nonneg h1 h2
  linarith

/-! ### Claim theorems: rational-valued operations -/

/-- **C3.** `molecularWeight()` equals one water weight plus the sum over
the 20 canonical residues of `count · (weight − water)`, and on the empty
sequence it is exactly the water constant 18.015. -/
theorem molecularWeight_formula_and_empty (s : List Char) :
    molecularWeight (mkProteinParam s) =
      18.015 + ∑ aa ∈ ({'A', 'C', 'D', 'E', 'F', 'G', 'H', 'I', 'K', 'L',
          'M', 'N', 'P', 'Q', 'R', 'S', 'T', 'V', 'W', 'Y'} : Finset Char),
        ((upperChain s).count aa : ℚ) * (aa2mw aa - 18.015) ∧
    molecularWeight (mkProteinParam ([] : List Char)) = 18.015 := by
  constructor
  · rw [molecularWeight_mk]
    have hset : ({'A', 'C', 'D', 'E', 'F', 'G', 'H', 'I', 'K', 'L',
        'M', 'N', 'P', 'Q', 'R', 'S', 'T', 'V', 'W', 'Y'} : Finset Char) =
        aminoList.toFinset := by decide
    have hnd : aminoList.Nodup := by decide
    rw [hset, List.sum_toFinset _ hnd]
    norm_num [mwH2O]
  · rw [molecularWeight_mk]
    simp [aminoList, upperChain, mwH2O]

/-- **C7.** `molarExtinction()` is the sum over the four UV-absorbing
residues Y, W, C, F of `count · coefficient`; a sequence containing none
of them (in either case) yields exactly 0. -/
theorem molarExtinction_formula (s : List Char) :
    molarExtinction (mkProteinParam s) =
      ((upperChain s).count 'Y' : ℚ) * 1490 +
      ((upperChain s).count 'W' : ℚ) * 5500 +
      ((upperChain s).count 'C' : ℚ) * 125 +
      ((upperChain s).count 'F' : ℚ) * 200 ∧
    ((∀ c ∈ s, Char.toUpper c ∉ (['Y', 'W', 'C', 'F'] : List Char)) →
      molarExtinction (mkProteinParam s) = 0) := by
  have hform : molarExtinction (mkProteinParam s) =
      ((upperChain s).count 'Y' : ℚ) * 1490 +
      ((upperChain s).count 'W' : ℚ) * 5500 +
      ((upperChain s).count 'C' : ℚ) * 125 +
      ((upperChain s).count 'F' : ℚ) * 200 := by
    rw [molarExtinction_mk]
    simp [absList, aa2abs280]
    ring
  refine ⟨hform, fun h => ?_⟩
  have hz : ∀ aa ∈ (['Y', 'W', 'C', 'F'] : List Char),
      (upperChain s).count aa = 0 := by
    intro aa ha
    rw [List.count_eq_zero]
    intro hmem
    rcases List.mem_map.1 hmem with ⟨c, hc, rfl⟩
    exact h c hc ha
  rw [hform, hz 'Y' (by decide), hz 'W' (by decide), hz 'C' (by decide),
    hz 'F' (by decide)]
  norm_num

/-- Witness for C7: a sequence with no Y/W/C/F residues has extinction 0. -/
theorem molarExtinction_formula_witness :
    molarExtinction (mkProteinParam ['A', 'g', 'M']) = 0 :=
  (molarExtinction_formula ['A', 'g', 'M']).2 (by decide)

/-- **C6.** Construction and queries are total; `molecularWeight` is at
least the water weight 18.015 for every input, hence nonzero, so the
zero-weight guard branch of `massExtinction()` is unreachable and the
division is always taken. -/
theorem massExtinction_total (s : List Char) :
    (18.015 : ℚ) ≤ molecularWeight (mkProteinParam s) ∧
    molecularWeight (mkProteinParam s) ≠ 0 ∧
    massExtinction (mkProteinParam s) =
      molarExtinction (mkProteinParam s) / molecularWeight (mkProteinParam s) := by
  have hge : (18.015 : ℚ) ≤ molecularWeight (mkProteinParam s) :=
    molecularWeight_ge_water s
  have hne : molecularWeight (mkProteinParam s) ≠ 0 := by
    intro h
    rw [h] at hge
    norm_num at hge
  exact ⟨hge, hne, by rw [massExtinction, if_neg hne]⟩

theorem sum_aaCountOf (chain : List Char) (h : ∀ c ∈ chain, c ∈ aminoList) :
    (aaCountOf chain).sum = chain.length := by
  have hnd : aminoList.Nodup := by decide
  unfold aaCountOf
  rw [← List.sum_toFinset _ hnd, ← List.sum_toFinset_count_eq_length chain]
  refine (Finset.sum_subset ?_ ?_).symm
  · intro x hx
    exact List.mem_toFinset.2 (h x (List.mem_toFinset.1 hx))
  · intro x _ hx
    exact List.count_eq_zero.2 (fun hm => hx (List.mem_toFinset.2 hm))

/-- **C4.** `aaComposition()` has an entry for each of the 20 canonical
residues (in table order), each entry holds the residue's count (zero for
absent residues), and for all-canonical sequences (either case) the
counts sum to the input length. -/
theorem aaComposition_complete (s : List Char) :
    (aaComposition (mkProteinParam s)).map Prod.fst = aminoList ∧
    (∀ aa ∈ aminoList,
      lookupD (aaComposition (mkProteinParam s)) aa = (upperChain s).count aa) ∧
    ((∀ c ∈ s, Char.toUpper c ∈ aminoList) →
      ((aaComposition (mkProteinParam s)).map Prod.snd).sum = s.length) := by
  refine ⟨?_, ?_, ?_⟩
  · rw [aaComposition, AADict_mk, zip_self_map, List.map_map]
    have : (Prod.fst ∘ fun a => (a, (upperChain s).count a)) =
        fun a : Char => a := rfl
    rw [this, List.map_id']
  · intro aa ha
    exact lookupD_mk s aa ha
  · intro h
    rw [aaComposition, AADict_mk, zip_self_map, List.map_map]
    have : (Prod.snd ∘ fun a => (a, (upperChain s).count a)) =
        fun aa => (upperChain s).count aa := rfl
    rw [this]
    have hchain : ∀ c ∈ upperChain s, c ∈ aminoList := by
      intro c hc
      rcases List.mem_map.1 hc with ⟨d, hd, rfl⟩
      exact h d hd
    have := sum_aaCountOf (upperChain s) hchain
    unfold aaCountOf at this
    rw [this, upperChain, List.length_map]

/-- Witness for C4 at the mixed-case sequence `['m', 'A', 'y']`. -/
theorem aaComposition_complete_witness :
    ((aaComposition (mkProteinParam ['m', 'A', 'y'])).map Prod.snd).sum =
      (['m', 'A', 'y'] : List Char).length :=
  (aaComposition_complete ['m', 'A', 'y']).2.2 (by decide)

/-- **C8.** Molecular weight never decreases when a character is appended
to the sequence. -/
theorem molecularWeight_append_mono (s : List Char) (c : Char) :
    molecularWeight (mkProteinParam s) ≤
      molecularWeight (mkProteinParam (s ++ [c])) := by
  rw [molecularWeight_mk, molecularWeight_mk]
  have hcount : ∀ aa, (upperChain (s ++ [c])).count aa =
      (upperChain s).count aa + if Char.toUpper c = aa then 1 else 0 := by
    intro aa
    rw [upperChain, List.map_append, List.count_append]
    simp [upperChain, List.count_singleton']
  apply add_le_add_left
  apply List.sum_le_sum
  intro aa ha
  rw [hcount aa]
  have hw : (0 : ℚ) ≤ aa2mw aa - mwH2O := by linarith [aa2mw_ge_water aa ha]
  exact mul_le_mul_of_nonneg_right
    (Nat.cast_le.2 (Nat.le_add_right _ _)) hw

/-- The instance state is a fixed point of `aaCount()`: the method
recomputes exactly the values `__init__` stored. -/
theorem aaCount_state_fix (s : List Char) :
    (aaCount (mkProteinParam s)).1 = mkProteinParam s := rfl

/-- **C9.** All query operations are pure: the instance state is
unchanged by `aaCount()`, and each query returns identical results when
repeated, including after an intervening `aaCount()` call. -/
theorem queries_pure (s : List Char) :
    (aaCount (mkProteinParam s)).1 = mkProteinParam s ∧
    aaCount ((aaCount (mkProteinParam s)).1) = aaCount (mkProteinParam s) ∧
    aaComposition ((aaCount (mkProteinParam s)).1) =
      aaComposition (mkProteinParam s) ∧
    molecularWeight ((aaCount (mkProteinParam s)).1) =
      molecularWeight (mkProteinParam s) ∧
    molarExtinction ((aaCount (mkProteinParam s)).1) =
      molarExtinction (mkProteinParam s) ∧
    massExtinction ((aaCount (mkProteinParam s)).1) =
      massExtinction (mkProteinParam s) ∧
    pI ((aaCount (mkProteinParam s)).1) = pI (mkProteinParam s) := by
  refine ⟨aaCount_state_fix s, ?_, ?_, ?_, ?_, ?_, ?_⟩ <;>
    rw [aaCount_state_fix s]

/-- `pI` depends on the instance only through `AADict`. -/
theorem pI_congr (p q : ProteinParam) (h : p.AADict = q.AADict) :
    pI p = pI q := by
  unfold pI charge chargeList netCharge posCharge negCharge
  rw [h]

/-- **C10.** A character whose uppercase form is not canonical is fully
inert: appending it changes none of the six query results. -/
theorem nonCanonical_inert (s : List Char) (c : Char)
    (h : Char.toUpper c ∉ aminoList) :
    (aaCount (mkProteinParam (s ++ [c]))).2 = (aaCount (mkProteinParam s)).2 ∧
    aaComposition (mkProteinParam (s ++ [c])) = aaComposition (mkProteinParam s) ∧
    molecularWeight (mkProteinParam (s ++ [c])) =
      molecularWeight (mkProteinParam s) ∧
    molarExtinction (mkProteinParam (s ++ [c])) =
      molarExtinction (mkProteinParam s) ∧
    massExtinction (mkProteinParam (s ++ [c])) =
      massExtinction (mkProteinParam s) ∧
    pI (mkProteinParam (s ++ [c])) = pI (mkProteinParam s) := by
  have hc : aaCountOf (upperChain (s ++ [c])) = aaCountOf (upperChain s) := by
    unfold aaCountOf
    apply List.map_congr_left
    intro aa ha
    rw [upperChain, List.map_append]
    simp only [List.map_cons, List.map_nil, List.count_append]
    have : List.count aa [Char.toUpper c] = 0 := by
      rw [List.count_singleton']
      exact if_neg fun (he : Char.toUpper c = aa) => h (he ▸ ha)
    rw [this, add_zero]
    rfl
  have hdict : (mkProteinParam (s ++ [c])).AADict = (mkProteinParam s).AADict := by
    show aminoList.zip (aaCountOf (upperChain (s ++ [c]))) =
      aminoList.zip (aaCountOf (upperChain s))
    rw [hc]
  have hcnt : (mkProteinParam (s ++ [c])).AminoCount =
      (mkProteinParam s).AminoCount := hc
  refine ⟨?_, ?_, ?_, ?_, ?_, ?_⟩
  · show (aaCountOf (upperChain (s ++ [c]))).sum =
      (aaCountOf (upperChain s)).sum
    rw [hc]
  · exact hdict
  · unfold molecularWeight
    rw [hcnt]
  · unfold molarExtinction
    rw [hdict]
  · unfold massExtinction molecularWeight molarExtinction
    rw [hcnt, hdict]
  · exact pI_congr _ _ hdict

/-- Witness for C10: appending the digit `'1'` to `"A"` changes nothing. -/
theorem nonCanonical_inert_witness :
    (aaCount (mkProteinParam (['A'] ++ ['1']))).2 =
      (aaCount (mkProteinParam ['A'])).2 ∧
    aaComposition (mkProteinParam (['A'] ++ ['1'])) =
      aaComposition (mkProteinParam ['A']) ∧
    molecularWeight (mkProteinParam (['A'] ++ ['1'])) =
      molecularWeight (mkProteinParam ['A']) ∧
    molarExtinction (mkProteinParam (['A'] ++ ['1'])) =
      molarExtinction (mkProteinParam ['A']) ∧
    massExtinction (mkProteinParam (['A'] ++ ['1'])) =
      massExtinction (mkProteinParam ['A']) ∧
    pI (mkProteinParam (['A'] ++ ['1'])) = pI (mkProteinParam ['A']) :=
  nonCanonical_inert ['A'] '1' (by decide)

/-! ### The scan loop: Python `min` and `list.index` -/

theorem foldl_min_le_init (l : List ℝ) : ∀ a : ℝ, l.foldl min a ≤ a := by
  induction l with
  | nil => intro a; exact le_refl a
  | cons b t ih =>
    intro a
    calc t.foldl min (min a b) ≤ min a b := ih (min a b)
      _ ≤ a := min_le_left a b

theorem foldl_min_le_mem (l : List ℝ) :
    ∀ (a x : ℝ), x ∈ l → l.foldl min a ≤ x := by
  induction l with
  | nil => intro a x hx; cases hx
  | cons b t ih =>
    intro a x hx
    rcases List.mem_cons.1 hx with rfl | hx
    · calc t.foldl min (min a x) ≤ min a x := foldl_min_le_init t (min a x)
        _ ≤ x := min_le_right a x
    · exact ih (min a b) x hx

theorem foldl_min_mem (l : List ℝ) :
    ∀ a : ℝ, l.foldl min a = a ∨ l.foldl min a ∈ l := by
  induction l with
  | nil => intro a; exact Or.inl rfl
  | cons b t ih =>
    intro a
    rcases ih (min a b) with h | h
    · rcases min_choice a b with hm | hm
      · exact Or.inl (h.trans hm)
      · exact Or.inr (List.mem_cons.2 (Or.inl (h.trans hm)))
    · exact Or.inr (List.mem_cons.2 (Or.inr h))

theorem listMin_le (a : ℝ) (l : List ℝ) :
    ∀ x ∈ a :: l, listMin (a :: l) ≤ x := by
  intro x hx
  rcases List.mem_cons.1 hx with rfl | hx
  · exact foldl_min_le_init l x
  · exact foldl_min_le_mem l a x hx

theorem listMin_mem (a : ℝ) (l : List ℝ) : listMin (a :: l) ∈ a :: l := by
  rcases foldl_min_mem l a with h | h
  · exact List.mem_cons.2 (Or.inl h)
  · exact List.mem_cons.2 (Or.inr h)

theorem listMin_eq (a : ℝ) (l : List ℝ) (x : ℝ) (hmem : x ∈ a :: l)
    (hle : ∀ y ∈ a :: l, x ≤ y) : listMin (a :: l) = x :=
  le_antisymm (listMin_le a l x hmem) (hle _ (listMin_mem a l))

theorem indexOfR_eq_of_first (l : List ℝ) :
    ∀ (n : ℕ) (hn : n < l.length),
      (∀ j (hj : j < l.length), j < n → l.get ⟨j, hj⟩ ≠ l.get ⟨n, hn⟩) →
      indexOfR (l.get ⟨n, hn⟩) l = n := by
  induction l with
  | nil => intro n hn; cases (Nat.not_lt_zero n) hn
  | cons a t ih =>
    intro n hn h
    cases n with
    | zero => simp [indexOfR]
    | succ m =>
      have hm : m < t.length := Nat.lt_of_succ_lt_succ hn
      have hget : (a :: t).get ⟨m + 1, hn⟩ = t.get ⟨m, hm⟩ := rfl
      have ha : a ≠ (a :: t).get ⟨m + 1, hn⟩ := by
        have := h 0 (Nat.succ_pos _) (Nat.succ_pos m)
        simpa using this
      have ht : ∀ j (hj : j < t.length), j < m →
          t.get ⟨j, hj⟩ ≠ t.get ⟨m, hm⟩ := by
        intro j hj hjm
        have := h (j + 1) (Nat.succ_lt_succ hj) (Nat.succ_lt_succ hjm)
        simpa using this
      rw [hget, indexOfR, if_neg (hget ▸ ha), ih m hm ht]

/-- The key characterization of `_charge_()`: if `n` is the first grid
index minimizing the net-charge magnitude, the scan returns `n * 0.01`. -/
theorem charge_eq_of_first_min (p : ProteinParam) (n : ℕ) (hn : n < 1400)
    (hmin : ∀ m : ℕ, m < 1400 →
      netCharge p ((n : ℚ) * 0.01) ≤ netCharge p ((m : ℚ) * 0.01))
    (hfirst : ∀ m : ℕ, m < n →
      netCharge p ((n : ℚ) * 0.01) < netCharge p ((m : ℚ) * 0.01)) :
    charge p = (n : ℚ) * 0.01 := by
  have hlen : (chargeList p).length = 1400 := by
    simp only [chargeList, List.length_map, List.length_range]
  have hn' : n < (chargeList p).length := by rw [hlen]; exact hn
  have hget : ∀ (m : ℕ) (hm : m < (chargeList p).length),
      (chargeList p).get ⟨m, hm⟩ = netCharge p ((m : ℚ) * 0.01) := by
    intro m hm
    simp only [chargeList, List.get_eq_getElem, List.getElem_map,
      List.getElem_range]
  -- the value of `min(charges)` is the charge at `n`
  have hminval : listMin (chargeList p) = netCharge p ((n : ℚ) * 0.01) := by
    rcases hl : chargeList p with _ | ⟨a, t⟩
    · rw [hl] at hlen; simp at hlen
    · apply listMin_eq
      · rw [← hl, ← hget n hn']
        exact List.get_mem _ n hn'
      · intro y hy
        rw [← hl] at hy
        simp only [chargeList, List.mem_map, List.mem_range] at hy
        rcases hy with ⟨m, hmr, rfl⟩
        exact hmin m hmr
  -- `charges.index` finds exactly `n`
  have hidx : indexOfR (listMin (chargeList p)) (chargeList p) = n := by
    rw [hminval, ← hget n hn']
    apply indexOfR_eq_of_first
    intro j hj hjn
    rw [hget j hj, hget n hn']
    exact (hfirst j hjn).ne'
  rw [charge, hidx]
  have hval : phList[n]? = some ((n : ℚ) * 0.01) := by
    simp only [phList, List.getElem?_map, List.getElem?_range hn,
      Option.map_some']
  rw [List.getD_eq_getElem?_getD, hval, Option.getD_some]

/-- **C5.** The scan evaluates exactly 1400 pH samples and `pI()` always
returns a value in `[0.00, 13.99]`, for every sequence (no failure
path). -/
theorem pI_scan_total (s : List Char) :
    (chargeList (mkProteinParam s)).length = 1400 ∧
    phList.length = 1400 ∧
    0 ≤ pI (mkProteinParam s) ∧ pI (mkProteinParam s) ≤ 13.99 := by
  have hphlen : phList.length = 1400 := by
    simp only [phList, List.length_map, List.length_range]
  have key : ∀ i : ℕ, 0 ≤ phList.getD i 0 ∧ phList.getD i 0 ≤ 13.99 := by
    intro i
    rcases lt_or_ge i 1400 with hlt | hge
    · have hval : phList[i]? = some ((i : ℚ) * 0.01) := by
        simp only [phList, List.getElem?_map, List.getElem?_range hlt,
          Option.map_some']
      rw [List.getD_eq_getElem?_getD, hval, Option.getD_some]
      have hc : ((i : ℚ)) ≤ 1399 := by exact_mod_cast Nat.lt_succ_iff.1 hlt
      have hc0 : (0 : ℚ) ≤ (i : ℚ) := by positivity
      constructor
      · positivity
      · nlinarith
    · rw [List.getD_eq_getElem?_getD, List.getElem?_eq_none (by omega)]
      norm_num
  refine ⟨by simp only [chargeList, List.length_map, List.length_range],
    hphlen, (key _).1, (key _).2⟩

/-- The spec's formula for the net-charge magnitude agrees with the
code's `_charge_` summands. -/
theorem netChargeSpec_eq (s : List Char) (ph : ℚ) :
    netChargeSpec s ph = netCharge (mkProteinParam s) ph := by
  have hK := lookupD_mk s 'K' (by decide)
  have hR := lookupD_mk s 'R' (by decide)
  have hH := lookupD_mk s 'H' (by decide)
  have hD := lookupD_mk s 'D' (by decide)
  have hE := lookupD_mk s 'E' (by decide)
  have hC := lookupD_mk s 'C' (by decide)
  have hY := lookupD_mk s 'Y' (by decide)
  unfold netChargeSpec netCharge posCharge negCharge
  rw [show ({'K', 'R', 'H'} : Finset Char) = insert 'K' (insert 'R' {'H'})
      from rfl,
    Finset.sum_insert (by decide), Finset.sum_insert (by decide),
    Finset.sum_singleton,
    show ({'D', 'E', 'C', 'Y'} : Finset Char) =
      insert 'D' (insert 'E' (insert 'C' {'Y'})) from rfl,
    Finset.sum_insert (by decide), Finset.sum_insert (by decide),
    Finset.sum_insert (by decide), Finset.sum_singleton]
  simp only [posList, negList, List.map_cons, List.map_nil, List.sum_cons,
    List.sum_nil, hK, hR, hH, hD, hE, hC, hY, aa2chargePos, aa2chargeNeg,
    aaNterm, aaCterm]
  congr 1
  ring

/-- **C1.** `pI()` returns the sample of the 1400-point grid
`n * 0.01`, `n = 0 .. 1399`, that minimizes the spec's net-charge
magnitude, ties broken by the first (lowest-pH) occurrence in scan
order. -/
theorem pI_eq_first_argmin (s : List Char) (n : ℕ) (hn : n < 1400)
    (hmin : ∀ m : ℕ, m < 1400 →
      netChargeSpec s ((n : ℚ) * 0.01) ≤ netChargeSpec s ((m : ℚ) * 0.01))
    (hfirst : ∀ m : ℕ, m < n →
      netChargeSpec s ((n : ℚ) * 0.01) < netChargeSpec s ((m : ℚ) * 0.01)) :
    pI (mkProteinParam s) = (n : ℚ) * 0.01 := by
  rw [pI]
  apply charge_eq_of_first_min _ n hn
  · intro m hm
    have h := hmin m hm
    rwa [netChargeSpec_eq, netChargeSpec_eq] at h
  · intro m hm
    have h := hfirst m hm
    rwa [netChargeSpec_eq, netChargeSpec_eq] at h

/-! ### Sign analysis of the net charge along the scan -/

theorem netCharge_eq_abs (p : ProteinParam) (ph : ℚ) :
    netCharge p ph = |signedCharge p ph| := rfl

theorem exp10_pos (q : ℚ) : 0 < exp10 q :=
  Real.rpow_pos_of_pos (by norm_num) _

theorem exp10_lt_exp10 (q r : ℚ) (h : q < r) : exp10 q < exp10 r := by
  unfold exp10
  rw [Real.rpow_lt_rpow_left_iff (by norm_num : (1 : ℝ) < 10)]
  exact_mod_cast h

theorem exp10_add (q r : ℚ) : exp10 (q + r) = exp10 q * exp10 r := by
  unfold exp10
  push_cast
  exact Real.rpow_add (by norm_num) _ _

/-- The positive charge is antitone in pH (weakly, termwise). -/
theorem posCharge_lt (p : ProteinParam) (q r : ℚ) (h : q < r) :
    posCharge p r < posCharge p q := by
  have hx := exp10_lt_exp10 q r h
  have hxq := exp10_pos q
  have hxr := exp10_pos r
  unfold posCharge
  have hsum : ((posList.map (fun aa =>
      (lookupD p.AADict aa : ℝ) * exp10 (aa2chargePos aa) /
        (exp10 (aa2chargePos aa) + exp10 r))).sum) ≤
      ((posList.map (fun aa =>
      (lookupD p.AADict aa : ℝ) * exp10 (aa2chargePos aa) /
        (exp10 (aa2chargePos aa) + exp10 q))).sum) := by
    apply List.sum_le_sum
    intro aa _
    have hA := exp10_pos (aa2chargePos aa)
    have hnum : (0 : ℝ) ≤ (lookupD p.AADict aa : ℝ) * exp10 (aa2chargePos aa) :=
      mul_nonneg (Nat.cast_nonneg _) (le_of_lt hA)
    exact div_le_div_of_nonneg_left hnum (by linarith) (by linarith)
  have hterm : exp10 aaNterm / (exp10 aaNterm + exp10 r) <
      exp10 aaNterm / (exp10 aaNterm + exp10 q) := by
    have hN := exp10_pos aaNterm
    exact div_lt_div_of_pos_left hN (by linarith) (by linarith)
  linarith

/-- The negative charge is monotone in pH (strict via the C-terminus). -/
theorem negCharge_lt (p : ProteinParam) (q r : ℚ) (h : q < r) :
    negCharge p q < negCharge p r := by
  have hx := exp10_lt_exp10 q r h
  have hxq := exp10_pos q
  have hxr := exp10_pos r
  unfold negCharge
  have hsum : ((negList.map (fun aa =>
      (lookupD p.AADict aa : ℝ) * exp10 q /
        (exp10 (aa2chargeNeg aa) + exp10 q))).sum) ≤
      ((negList.map (fun aa =>
      (lookupD p.AADict aa : ℝ) * exp10 r /
        (exp10 (aa2chargeNeg aa) + exp10 r))).sum) := by
    apply List.sum_le_sum
    intro aa _
    have hB := exp10_pos (aa2chargeNeg aa)
    have hc : (0 : ℝ) ≤ (lookupD p.AADict aa : ℝ) := Nat.cast_nonneg _
    rw [div_le_div_iff (by linarith) (by linarith)]
    nlinarith [mul_nonneg (mul_nonneg hc hB.le) (sub_nonneg.2 hx.le)]
  have hterm : exp10 q / (exp10 aaCterm + exp10 q) <
      exp10 r / (exp10 aaCterm + exp10 r) := by
    have hC := exp10_pos aaCterm
    rw [div_lt_div_iff (by linarith) (by linarith)]
    nlinarith
  linarith

/-- The signed net charge is strictly decreasing in pH. -/
theorem signedCharge_strictAnti (p : ProteinParam) (q r : ℚ) (h : q < r) :
    signedCharge p r < signedCharge p q := by
  have h1 := posCharge_lt p q r h
  have h2 := negCharge_lt p q r h
  unfold signedCharge
  linarith

/-- If the signed charge crosses zero between grid samples `n0` and
`n0 + 1`, and the magnitude at `n0` is at most that at `n0 + 1`, then
`n0` is the first minimizer of the scan. -/
theorem first_min_of_crossing (p : ProteinParam) (n0 : ℕ)
    (h1 : n0 + 1 < 1400)
    (hpos : 0 < signedCharge p ((n0 : ℚ) * 0.01))
    (hneg : signedCharge p (((n0 : ℚ) + 1) * 0.01) < 0)
    (hcmp : signedCharge p ((n0 : ℚ) * 0.01) +
      signedCharge p (((n0 : ℚ) + 1) * 0.01) ≤ 0) :
    (∀ m : ℕ, m < 1400 →
      netCharge p ((n0 : ℚ) * 0.01) ≤ netCharge p ((m : ℚ) * 0.01)) ∧
    (∀ m : ℕ, m < n0 →
      netCharge p ((n0 : ℚ) * 0.01) < netCharge p ((m : ℚ) * 0.01)) := by
  have habs0 : netCharge p ((n0 : ℚ) * 0.01) = signedCharge p ((n0 : ℚ) * 0.01) := by
    rw [netCharge_eq_abs]
    exact abs_of_pos hpos
  have hstep : ∀ m : ℕ, n0 < m →
      signedCharge p ((m : ℚ) * 0.01) ≤ signedCharge p (((n0 : ℚ) + 1) * 0.01) := by
    intro m hm
    rcases eq_or_lt_of_le (Nat.succ_le_of_lt hm) with he | hl
    · have : ((m : ℚ)) = (n0 : ℚ) + 1 := by exact_mod_cast he.symm
      rw [this]
    · have hq : ((n0 : ℚ) + 1) * 0.01 < (m : ℚ) * 0.01 := by
        have : ((n0 : ℚ)) + 1 < (m : ℚ) := by exact_mod_cast hl
        nlinarith
      exact le_of_lt (signedCharge_strictAnti p _ _ hq)
  have hlt : ∀ m : ℕ, m < n0 →
      netCharge p ((n0 : ℚ) * 0.01) < netCharge p ((m : ℚ) * 0.01) := by
    intro m hm
    have hq : (m : ℚ) * 0.01 < (n0 : ℚ) * 0.01 := by
      have : (m : ℚ) < (n0 : ℚ) := by exact_mod_cast hm
      nlinarith
    have hs := signedCharge_strictAnti p _ _ hq
    have hmpos : 0 < signedCharge p ((m : ℚ) * 0.01) := lt_trans hpos hs
    rw [habs0, netCharge_eq_abs, abs_of_pos hmpos]
    exact hs
  refine ⟨?_, hlt⟩
  intro m _
  rcases lt_trichotomy m n0 with hm | rfl | hm
  · exact le_of_lt (hlt m hm)
  · exact le_refl _
  · have hs := hstep m hm
    have hmneg : signedCharge p ((m : ℚ) * 0.01) < 0 := lt_of_le_of_lt hs hneg
    rw [habs0, netCharge_eq_abs, abs_of_neg hmneg]
    linarith

/-! ### The empty sequence: an exact tie broken by scan order -/

theorem signedCharge_nil (ph : ℚ) :
    signedCharge (mkProteinParam ([] : List Char)) ph =
      exp10 9.69 / (exp10 9.69 + exp10 ph) -
        exp10 ph / (exp10 2.34 + exp10 ph) := by
  have hK : lookupD (mkProteinParam ([] : List Char)).AADict 'K' = 0 := by decide
  have hR : lookupD (mkProteinParam ([] : List Char)).AADict 'R' = 0 := by decide
  have hH : lookupD (mkProteinParam ([] : List Char)).AADict 'H' = 0 := by decide
  have hD : lookupD (mkProteinParam ([] : List Char)).AADict 'D' = 0 := by decide
  have hE : lookupD (mkProteinParam ([] : List Char)).AADict 'E' = 0 := by decide
  have hC : lookupD (mkProteinParam ([] : List Char)).AADict 'C' = 0 := by decide
  have hY : lookupD (mkProteinParam ([] : List Char)).AADict 'Y' = 0 := by decide
  unfold signedCharge posCharge negCharge
  simp only [posList, negList, List.map_cons, List.map_nil, List.sum_cons,
    List.sum_nil, hK, hR, hH, hD, hE, hC, hY, Nat.cast_zero, zero_mul,
    zero_div, zero_add, add_zero, aaNterm, aaCterm]

/-- The terminus pKa product identity `10^6.01 · 10^6.02 = 10^9.69 · 10^2.34`
behind the exact tie of the empty-sequence scan. -/
theorem tie_identity : exp10 6.01 * exp10 6.02 = exp10 9.69 * exp10 2.34 := by
  rw [← exp10_add, ← exp10_add]
  norm_num

theorem signedCharge_nil_601_pos :
    0 < signedCharge (mkProteinParam ([] : List Char)) 6.01 := by
  rw [signedCharge_nil]
  have hN := exp10_pos 9.69
  have hC := exp10_pos 2.34
  have hx := exp10_pos 6.01
  have hx' := exp10_pos 6.02
  have hlt : exp10 6.01 < exp10 6.02 := exp10_lt_exp10 _ _ (by norm_num)
  have hsq : exp10 6.01 * exp10 6.01 < exp10 9.69 * exp10 2.34 := by
    calc exp10 6.01 * exp10 6.01 < exp10 6.01 * exp10 6.02 := by nlinarith
      _ = exp10 9.69 * exp10 2.34 := tie_identity
  rw [sub_pos, div_lt_div_iff (by linarith) (by linarith)]
  nlinarith

theorem signedCharge_nil_602_neg :
    signedCharge (mkProteinParam ([] : List Char)) 6.02 =
      - signedCharge (mkProteinParam ([] : List Char)) 6.01 := by
  rw [signedCharge_nil, signedCharge_nil]
  have hN := exp10_pos 9.69
  have hC := exp10_pos 2.34
  have hx := exp10_pos 6.01
  have hx' := exp10_pos 6.02
  have h1 : exp10 9.69 / (exp10 9.69 + exp10 6.02) =
      exp10 6.01 / (exp10 2.34 + exp10 6.01) := by
    rw [div_eq_div_iff (by linarith) (by linarith)]
    linear_combination - tie_identity
  have h2 : exp10 6.02 / (exp10 2.34 + exp10 6.02) =
      exp10 9.69 / (exp10 9.69 + exp10 6.01) := by
    rw [div_eq_div_iff (by linarith) (by linarith)]
    linear_combination tie_identity
  rw [h1, h2]
  ring

/-- Witness for C1: on the empty sequence the minimal net-charge
magnitude is attained in an exact tie at samples 601 and 602, and the
scan returns the first, `pI = 6.01`. -/
theorem pI_eq_first_argmin_witness :
    pI (mkProteinParam ([] : List Char)) = 6.01 := by
  have hc1 : ((601 : ℕ) : ℚ) * 0.01 = 6.01 := by norm_num
  have hc2 : (((601 : ℕ) : ℚ) + 1) * 0.01 = 6.02 := by norm_num
  have hpos : 0 < signedCharge (mkProteinParam ([] : List Char))
      (((601 : ℕ) : ℚ) * 0.01) := by
    rw [hc1]; exact signedCharge_nil_601_pos
  have hneg : signedCharge (mkProteinParam ([] : List Char))
      ((((601 : ℕ) : ℚ) + 1) * 0.01) < 0 := by
    rw [hc2, signedCharge_nil_602_neg]
    linarith [signedCharge_nil_601_pos]
  have hcmp : signedCharge (mkProteinParam ([] : List Char))
        (((601 : ℕ) : ℚ) * 0.01) +
      signedCharge (mkProteinParam ([] : List Char))
        ((((601 : ℕ) : ℚ) + 1) * 0.01) ≤ 0 := by
    rw [hc1, hc2, signedCharge_nil_602_neg]
    linarith
  have key := first_min_of_crossing (mkProteinParam ([] : List Char)) 601
    (by norm_num) hpos hneg hcmp
  have h := pI_eq_first_argmin [] 601 (by norm_num)
    (fun m hm => by
      rw [netChargeSpec_eq, netChargeSpec_eq]
      exact key.1 m hm)
    (fun m hm => by
      rw [netChargeSpec_eq, netChargeSpec_eq]
      exact key.2 m hm)
  rw [h, hc1]

/-! ### The golden-value sequence of §8 -/

theorem aaCount_seqC2 : (aaCount (mkProteinParam seqC2)).2 = 29 := by decide

theorem molarExtinction_seqC2 : molarExtinction (mkProteinParam seqC2) = 0 := by
  have hY : (upperChain seqC2).count 'Y' = 0 := by decide
  have hW : (upperChain seqC2).count 'W' = 0 := by decide
  have hC : (upperChain seqC2).count 'C' = 0 := by decide
  have hF : (upperChain seqC2).count 'F' = 0 := by decide
  rw [molarExtinction_mk]
  simp only [absList, List.map_cons, List.map_nil, List.sum_cons,
    List.sum_nil, hY, hW, hC, hF, Nat.cast_zero, zero_mul, add_zero]

theorem molecularWeight_seqC2 :
    molecularWeight (mkProteinParam seqC2) = 3138.604 := by
  have hA : (upperChain seqC2).count 'A' = 5 := by decide
  have hG : (upperChain seqC2).count 'G' = 2 := by decide
  have hM : (upperChain seqC2).count 'M' = 3 := by decide
  have hS : (upperChain seqC2).count 'S' = 2 := by decide
  have hC : (upperChain seqC2).count 'C' = 0 := by decide
  have hH : (upperChain seqC2).count 'H' = 0 := by decide
  have hN : (upperChain seqC2).count 'N' = 0 := by decide
  have hT : (upperChain seqC2).count 'T' = 3 := by decide
  have hD : (upperChain seqC2).count 'D' = 0 := by decide
  have hI : (upperChain seqC2).count 'I' = 2 := by decide
  have hP : (upperChain seqC2).count 'P' = 0 := by decide
  have hV : (upperChain seqC2).count 'V' = 1 := by decide
  have hE : (upperChain seqC2).count 'E' = 4 := by decide
  have hK : (upperChain seqC2).count 'K' = 2 := by decide
  have hQ : (upperChain seqC2).count 'Q' = 2 := by decide
  have hW : (upperChain seqC2).count 'W' = 0 := by decide
  have hF : (upperChain seqC2).count 'F' = 0 := by decide
  have hL : (upperChain seqC2).count 'L' = 1 := by decide
  have hR : (upperChain seqC2).count 'R' = 2 := by decide
  have hY : (upperChain seqC2).count 'Y' = 0 := by decide
  rw [molecularWeight_mk]
  simp only [aminoList, List.map_cons, List.map_nil, List.sum_cons,
    List.sum_nil, hA, hG, hM, hS, hC, hH, hN, hT, hD, hI, hP, hV, hE, hK,
    hQ, hW, hF, hL, hR, hY]
  norm_num [aa2mw, mwH2O]

theorem massExtinction_seqC2 : massExtinction (mkProteinParam seqC2) = 0 := by
  rw [massExtinction, if_neg (massExtinction_total seqC2).2.1,
    molarExtinction_seqC2, zero_div]

/-- **C2, counterexample.** The spec's golden values are false for this
code: the sequence contains no Y/W/C/F residue, so the molar extinction
coefficient is 0, not ≈ 1490 (the molecular weight, mass extinction and
pI values fail as well). -/
theorem goldenValues_seqC2_false :
    ¬((aaCount (mkProteinParam seqC2)).2 = 29 ∧
      |molecularWeight (mkProteinParam seqC2) - 3200.7| ≤ 0.05 ∧
      |molarExtinction (mkProteinParam seqC2) - 1490| ≤ 0.05 ∧
      |massExtinction (mkProteinParam seqC2) - 0.47| ≤ 0.05 ∧
      |pI (mkProteinParam seqC2) - 7.97| ≤ 0.05) := by
  rintro ⟨-, -, h, -, -⟩
  rw [molarExtinction_seqC2] at h
  norm_num at h

/-! ### Certified rational bounds on the powers of ten in the scan -/

theorem exp10_pow_100 (k : ℕ) (q : ℚ) (hq : 100 * q = (k : ℚ)) :
    exp10 q ^ (100 : ℕ) = (10 : ℝ) ^ (k : ℕ) := by
  unfold exp10
  rw [← Real.rpow_natCast ((10 : ℝ) ^ ((q : ℚ) : ℝ)) 100,
    ← Real.rpow_mul (by norm_num : (0 : ℝ) ≤ 10),
    ← Real.rpow_natCast (10 : ℝ) k]
  congr 1
  have hq' : (100 : ℝ) * ((q : ℚ) : ℝ) = ((k : ℕ) : ℝ) := by
    exact_mod_cast congrArg (fun z : ℚ => (z : ℝ)) hq
  push_cast at hq' ⊢
  linarith

theorem le_exp10_bnd (k : ℕ) (q : ℚ) (m : ℕ) (hq : 100 * q = (k : ℚ))
    (h : ((m : ℚ) / 10 ^ 12) ^ 100 ≤ 10 ^ k) :
    (m : ℝ) / 10 ^ 12 ≤ exp10 q := by
  have hL : ((m : ℝ) / 10 ^ 12) ^ (100 : ℕ) ≤ exp10 q ^ (100 : ℕ) := by
    rw [exp10_pow_100 k q hq]
    have h2 := (Rat.cast_le (K := ℝ)).2 h
    push_cast at h2
    exact h2
  exact le_of_pow_le_pow_left (by norm_num) (exp10_pos q).le hL

theorem exp10_le_bnd (k : ℕ) (q : ℚ) (m : ℕ) (hq : 100 * q = (k : ℚ))
    (h : (10 : ℚ) ^ k ≤ ((m : ℚ) / 10 ^ 12) ^ 100) :
    exp10 q ≤ (m : ℝ) / 10 ^ 12 := by
  have hL : exp10 q ^ (100 : ℕ) ≤ ((m : ℝ) / 10 ^ 12) ^ (100 : ℕ) := by
    rw [exp10_pow_100 k q hq]
    have h2 := (Rat.cast_le (K := ℝ)).2 h
    push_cast at h2
    exact h2
  exact le_of_pow_le_pow_left (by norm_num) (by positivity) hL

/-! ### Interval bounds for the Henderson–Hasselbalch fractions -/

theorem posTerm_ge (a x al xh : ℝ) (hal : 0 < al) (hx0 : 0 < x)
    (ha : al ≤ a) (hx : x ≤ xh) : al / (al + xh) ≤ a / (a + x) := by
  rw [div_le_div_iff (by linarith) (by linarith)]
  nlinarith [mul_le_mul ha hx hx0.le (hal.le.trans ha)]

theorem posTerm_le (a x ah xl : ℝ) (ha0 : 0 < a) (hxl : 0 < xl)
    (ha : a ≤ ah) (hx : xl ≤ x) : a / (a + x) ≤ ah / (ah + xl) := by
  rw [div_le_div_iff (by linarith) (by linarith)]
  nlinarith [mul_le_mul ha hx hxl.le (ha0.le.trans ha)]

theorem negTerm_ge (b x bh xl : ℝ) (hxl : 0 < xl) (hb0 : 0 < b)
    (hx : xl ≤ x) (hb : b ≤ bh) : xl / (bh + xl) ≤ x / (b + x) := by
  rw [div_le_div_iff (by linarith) (by linarith)]
  nlinarith [mul_le_mul hx hb hb0.le (hxl.le.trans hx)]

theorem negTerm_le (b x bl xh : ℝ) (hbl : 0 < bl) (hx0 : 0 < x)
    (hb : bl ≤ b) (hx : x ≤ xh) : x / (b + x) ≤ xh / (bl + xh) := by
  rw [div_le_div_iff (by linarith) (by linarith)]
  nlinarith [mul_le_mul hx hb hbl.le (hx0.le.trans hx)]

/-- The signed net charge of the §8 sequence, with its residue counts
(K 2, R 2, E 4, and no H/D/C/Y) substituted. -/
theorem signedCharge_seqC2 (ph : ℚ) :
    signedCharge (mkProteinParam seqC2) ph =
      2 * (exp10 10.5 / (exp10 10.5 + exp10 ph)) +
      2 * (exp10 12.4 / (exp10 12.4 + exp10 ph)) +
      exp10 9.69 / (exp10 9.69 + exp10 ph) -
      (4 * (exp10 ph / (exp10 4.25 + exp10 ph)) +
        exp10 ph / (exp10 2.34 + exp10 ph)) := by
  have hK : lookupD (mkProteinParam seqC2).AADict 'K' = 2 := by decide
  have hR : lookupD (mkProteinParam seqC2).AADict 'R' = 2 := by decide
  have hH : lookupD (mkProteinParam seqC2).AADict 'H' = 0 := by decide
  have hD : lookupD (mkProteinParam seqC2).AADict 'D' = 0 := by decide
  have hE : lookupD (mkProteinParam seqC2).AADict 'E' = 4 := by decide
  have hC : lookupD (mkProteinParam seqC2).AADict 'C' = 0 := by decide
  have hY : lookupD (mkProteinParam seqC2).AADict 'Y' = 0 := by decide
  unfold signedCharge posCharge negCharge
  simp only [posList, negList, List.map_cons, List.map_nil, List.sum_cons,
    List.sum_nil, hK, hR, hH, hD, hE, hC, hY, aa2chargePos, aa2chargeNeg,
    aaNterm, aaCterm, Nat.cast_ofNat, Nat.cast_zero, zero_mul, zero_div,
    zero_add, add_zero]
  ring

theorem bndA_lo : ((31622776601683793319988 : ℕ) : ℝ) / 10 ^ 12 ≤ exp10 10.5 :=
  le_exp10_bnd 1050 10.5 _ (by norm_num) (by norm_num)

theorem bndA_hi : exp10 10.5 ≤ ((31622776601683793319989 : ℕ) : ℝ) / 10 ^ 12 :=
  exp10_le_bnd 1050 10.5 _ (by norm_num) (by norm_num)

theorem bndB_lo : ((2511886431509580111085032 : ℕ) : ℝ) / 10 ^ 12 ≤ exp10 12.4 :=
  le_exp10_bnd 1240 12.4 _ (by norm_num) (by norm_num)

theorem bndB_hi : exp10 12.4 ≤ ((2511886431509580111085033 : ℕ) : ℝ) / 10 ^ 12 :=
  exp10_le_bnd 1240 12.4 _ (by norm_num) (by norm_num)

theorem bndN_lo : ((4897788193684461959103 : ℕ) : ℝ) / 10 ^ 12 ≤ exp10 9.69 :=
  le_exp10_bnd 969 9.69 _ (by norm_num) (by norm_num)

theorem bndN_hi : exp10 9.69 ≤ ((4897788193684461959104 : ℕ) : ℝ) / 10 ^ 12 :=
  exp10_le_bnd 969 9.69 _ (by norm_num) (by norm_num)

theorem bndE_lo : ((17782794100389228 : ℕ) : ℝ) / 10 ^ 12 ≤ exp10 4.25 :=
  le_exp10_bnd 425 4.25 _ (by norm_num) (by norm_num)

theorem bndE_hi : exp10 4.25 ≤ ((17782794100389229 : ℕ) : ℝ) / 10 ^ 12 :=
  exp10_le_bnd 425 4.25 _ (by norm_num) (by norm_num)

theorem bndC_lo : ((218776162394955 : ℕ) : ℝ) / 10 ^ 12 ≤ exp10 2.34 :=
  le_exp10_bnd 234 2.34 _ (by norm_num) (by norm_num)

theorem bndC_hi : exp10 2.34 ≤ ((218776162394956 : ℕ) : ℝ) / 10 ^ 12 :=
  exp10_le_bnd 234 2.34 _ (by norm_num) (by norm_num)

theorem bnd721_lo : ((16218100973589299728 : ℕ) : ℝ) / 10 ^ 12 ≤ exp10 7.21 :=
  le_exp10_bnd 721 7.21 _ (by norm_num) (by norm_num)

theorem bnd721_hi : exp10 7.21 ≤ ((16218100973589299729 : ℕ) : ℝ) / 10 ^ 12 :=
  exp10_le_bnd 721 7.21 _ (by norm_num) (by norm_num)

theorem bnd722_lo : ((16595869074375606343 : ℕ) : ℝ) / 10 ^ 12 ≤ exp10 7.22 :=
  le_exp10_bnd 722 7.22 _ (by norm_num) (by norm_num)

theorem bnd722_hi : exp10 7.22 ≤ ((16595869074375606344 : ℕ) : ℝ) / 10 ^ 12 :=
  exp10_le_bnd 722 7.22 _ (by norm_num) (by norm_num)

/-- At pH 7.21 the §8 sequence still has positive net charge. -/
theorem signedCharge_seqC2_721_pos :
    0 < signedCharge (mkProteinParam seqC2) 7.21 := by
  rw [signedCharge_seqC2]
  have hx := exp10_pos 7.21
  have t1 := posTerm_ge (exp10 10.5) (exp10 7.21) _ _ (by positivity) hx
    bndA_lo bnd721_hi
  have t2 := posTerm_ge (exp10 12.4) (exp10 7.21) _ _ (by positivity) hx
    bndB_lo bnd721_hi
  have t3 := posTerm_ge (exp10 9.69) (exp10 7.21) _ _ (by positivity) hx
    bndN_lo bnd721_hi
  have t4 := negTerm_le (exp10 4.25) (exp10 7.21) _ _ (by positivity) hx
    bndE_lo bnd721_hi
  have t5 := negTerm_le (exp10 2.34) (exp10 7.21) _ _ (by positivity) hx
    bndC_lo bnd721_hi
  have hnum : (0 : ℝ) <
      2 * (((31622776601683793319988 : ℕ) : ℝ) / 10 ^ 12 /
        (((31622776601683793319988 : ℕ) : ℝ) / 10 ^ 12 +
          ((16218100973589299729 : ℕ) : ℝ) / 10 ^ 12)) +
      2 * (((2511886431509580111085032 : ℕ) : ℝ) / 10 ^ 12 /
        (((2511886431509580111085032 : ℕ) : ℝ) / 10 ^ 12 +
          ((16218100973589299729 : ℕ) : ℝ) / 10 ^ 12)) +
      ((4897788193684461959103 : ℕ) : ℝ) / 10 ^ 12 /
        (((4897788193684461959103 : ℕ) : ℝ) / 10 ^ 12 +
          ((16218100973589299729 : ℕ) : ℝ) / 10 ^ 12) -
      (4 * (((16218100973589299729 : ℕ) : ℝ) / 10 ^ 12 /
        (((17782794100389228 : ℕ) : ℝ) / 10 ^ 12 +
          ((16218100973589299729 : ℕ) : ℝ) / 10 ^ 12)) +
       ((16218100973589299729 : ℕ) : ℝ) / 10 ^ 12 /
        (((218776162394955 : ℕ) : ℝ) / 10 ^ 12 +
          ((16218100973589299729 : ℕ) : ℝ) / 10 ^ 12)) := by
    norm_num
  linarith

/-- At pH 7.22 the §8 sequence has negative net charge. -/
theorem signedCharge_seqC2_722_neg :
    signedCharge (mkProteinParam seqC2) 7.22 < 0 := by
  rw [signedCharge_seqC2]
  have hx := exp10_pos 7.22
  have t1 := posTerm_le (exp10 10.5) (exp10 7.22) _ _ (exp10_pos 10.5)
    (by positivity) bndA_hi bnd722_lo
  have t2 := posTerm_le (exp10 12.4) (exp10 7.22) _ _ (exp10_pos 12.4)
    (by positivity) bndB_hi bnd722_lo
  have t3 := posTerm_le (exp10 9.69) (exp10 7.22) _ _ (exp10_pos 9.69)
    (by positivity) bndN_hi bnd722_lo
  have t4 := negTerm_ge (exp10 4.25) (exp10 7.22) _ _ (by positivity)
    (exp10_pos 4.25) bnd722_lo bndE_hi
  have t5 := negTerm_ge (exp10 2.34) (exp10 7.22) _ _ (by positivity)
    (exp10_pos 2.34) bnd722_lo bndC_hi
  have hnum :
      2 * (((31622776601683793319989 : ℕ) : ℝ) / 10 ^ 12 /
        (((31622776601683793319989 : ℕ) : ℝ) / 10 ^ 12 +
          ((16595869074375606343 : ℕ) : ℝ) / 10 ^ 12)) +
      2 * (((2511886431509580111085033 : ℕ) : ℝ) / 10 ^ 12 /
        (((2511886431509580111085033 : ℕ) : ℝ) / 10 ^ 12 +
          ((16595869074375606343 : ℕ) : ℝ) / 10 ^ 12)) +
      ((4897788193684461959104 : ℕ) : ℝ) / 10 ^ 12 /
        (((4897788193684461959104 : ℕ) : ℝ) / 10 ^ 12 +
          ((16595869074375606343 : ℕ) : ℝ) / 10 ^ 12) -
      (4 * (((16595869074375606343 : ℕ) : ℝ) / 10 ^ 12 /
        (((17782794100389229 : ℕ) : ℝ) / 10 ^ 12 +
          ((16595869074375606343 : ℕ) : ℝ) / 10 ^ 12)) +
       ((16595869074375606343 : ℕ) : ℝ) / 10 ^ 12 /
        (((218776162394956 : ℕ) : ℝ) / 10 ^ 12 +
          ((16595869074375606343 : ℕ) : ℝ) / 10 ^ 12)) < 0 := by
    norm_num
  linarith

/-- The magnitude at sample 721 is strictly smaller than at sample 722:
the two signed charges sum to a negative number. -/
theorem signedCharge_seqC2_sum_neg :
    signedCharge (mkProteinParam seqC2) 7.21 +
      signedCharge (mkProteinParam seqC2) 7.22 < 0 := by
  rw [signedCharge_seqC2, signedCharge_seqC2]
  have hx1 := exp10_pos 7.21
  have hx2 := exp10_pos 7.22
  have t1 := posTerm_le (exp10 10.5) (exp10 7.21) _ _ (exp10_pos 10.5)
    (by positivity) bndA_hi bnd721_lo
  have t2 := posTerm_le (exp10 12.4) (exp10 7.21) _ _ (exp10_pos 12.4)
    (by positivity) bndB_hi bnd721_lo
  have t3 := posTerm_le (exp10 9.69) (exp10 7.21) _ _ (exp10_pos 9.69)
    (by positivity) bndN_hi bnd721_lo
  have t4 := negTerm_ge (exp10 4.25) (exp10 7.21) _ _ (by positivity)
    (exp10_pos 4.25) bnd721_lo bndE_hi
  have t5 := negTerm_ge (exp10 2.34) (exp10 7.21) _ _ (by positivity)
    (exp10_pos 2.34) bnd721_lo bndC_hi
  have s1 := posTerm_le (exp10 10.5) (exp10 7.22) _ _ (exp10_pos 10.5)
    (by positivity) bndA_hi bnd722_lo
  have s2 := posTerm_le (exp10 12.4) (exp10 7.22) _ _ (exp10_pos 12.4)
    (by positivity) bndB_hi bnd722_lo
  have s3 := posTerm_le (exp10 9.69) (exp10 7.22) _ _ (exp10_pos 9.69)
    (by positivity) bndN_hi bnd722_lo
  have s4 := negTerm_ge (exp10 4.25) (exp10 7.22) _ _ (by positivity)
    (exp10_pos 4.25) bnd722_lo bndE_hi
  have s5 := negTerm_ge (exp10 2.34) (exp10 7.22) _ _ (by positivity)
    (exp10_pos 2.34) bnd722_lo bndC_hi
  have hnum :
      (2 * (((31622776601683793319989 : ℕ) : ℝ) / 10 ^ 12 /
        (((31622776601683793319989 : ℕ) : ℝ) / 10 ^ 12 +
          ((16218100973589299728 : ℕ) : ℝ) / 10 ^ 12)) +
      2 * (((2511886431509580111085033 : ℕ) : ℝ) / 10 ^ 12 /
        (((2511886431509580111085033 : ℕ) : ℝ) / 10 ^ 12 +
          ((16218100973589299728 : ℕ) : ℝ) / 10 ^ 12)) +
      ((4897788193684461959104 : ℕ) : ℝ) / 10 ^ 12 /
        (((4897788193684461959104 : ℕ) : ℝ) / 10 ^ 12 +
          ((16218100973589299728 : ℕ) : ℝ) / 10 ^ 12) -
      (4 * (((16218100973589299728 : ℕ) : ℝ) / 10 ^ 12 /
        (((17782794100389229 : ℕ) : ℝ) / 10 ^ 12 +
          ((16218100973589299728 : ℕ) : ℝ) / 10 ^ 12)) +
       ((16218100973589299728 : ℕ) : ℝ) / 10 ^ 12 /
        (((218776162394956 : ℕ) : ℝ) / 10 ^ 12 +
          ((16218100973589299728 : ℕ) : ℝ) / 10 ^ 12))) +
      (2 * (((31622776601683793319989 : ℕ) : ℝ) / 10 ^ 12 /
        (((31622776601683793319989 : ℕ) : ℝ) / 10 ^ 12 +
          ((16595869074375606343 : ℕ) : ℝ) / 10 ^ 12)) +
      2 * (((2511886431509580111085033 : ℕ) : ℝ) / 10 ^ 12 /
        (((2511886431509580111085033 : ℕ) : ℝ) / 10 ^ 12 +
          ((16595869074375606343 : ℕ) : ℝ) / 10 ^ 12)) +
      ((4897788193684461959104 : ℕ) : ℝ) / 10 ^ 12 /
        (((4897788193684461959104 : ℕ) : ℝ) / 10 ^ 12 +
          ((16595869074375606343 : ℕ) : ℝ) / 10 ^ 12) -
      (4 * (((16595869074375606343 : ℕ) : ℝ) / 10 ^ 12 /
        (((17782794100389229 : ℕ) : ℝ) / 10 ^ 12 +
          ((16595869074375606343 : ℕ) : ℝ) / 10 ^ 12)) +
       ((16595869074375606343 : ℕ) : ℝ) / 10 ^ 12 /
        (((218776162394956 : ℕ) : ℝ) / 10 ^ 12 +
          ((16595869074375606343 : ℕ) : ℝ) / 10 ^ 12))) < 0 := by
    norm_num
  linarith

/-- The scan on the §8 sequence returns exactly the sample 7.21. -/
theorem pI_seqC2 : pI (mkProteinParam seqC2) = 7.21 := by
  have hc1 : ((721 : ℕ) : ℚ) * 0.01 = 7.21 := by norm_num
  have hc2 : (((721 : ℕ) : ℚ) + 1) * 0.01 = 7.22 := by norm_num
  have hpos : 0 < signedCharge (mkProteinParam seqC2)
      (((721 : ℕ) : ℚ) * 0.01) := by
    rw [hc1]; exact signedCharge_seqC2_721_pos
  have hneg : signedCharge (mkProteinParam seqC2)
      ((((721 : ℕ) : ℚ) + 1) * 0.01) < 0 := by
    rw [hc2]; exact signedCharge_seqC2_722_neg
  have hcmp : signedCharge (mkProteinParam seqC2) (((721 : ℕ) : ℚ) * 0.01) +
      signedCharge (mkProteinParam seqC2)
        ((((721 : ℕ) : ℚ) + 1) * 0.01) ≤ 0 := by
    rw [hc1, hc2]; exact (signedCharge_seqC2_sum_neg).le
  have key := first_min_of_crossing (mkProteinParam seqC2) 721
    (by norm_num) hpos hneg hcmp
  have h := charge_eq_of_first_min (mkProteinParam seqC2) 721
    (by norm_num) key.1 key.2
  rw [pI, h]
  exact hc1

/-- **C2, amended.** The actual values produced by the calculator on the
§8 sequence: 29 amino acids, molecular weight exactly 3138.604 Da, molar
extinction coefficient 0 (the sequence has no Y/W/C/F residue), mass
extinction coefficient 0, and pI exactly 7.21. -/
theorem goldenValues_seqC2_actual :
    (aaCount (mkProteinParam seqC2)).2 = 29 ∧
    molecularWeight (mkProteinParam seqC2) = 3138.604 ∧
    molarExtinction (mkProteinParam seqC2) = 0 ∧
    massExtinction (mkProteinParam seqC2) = 0 ∧
    pI (mkProteinParam seqC2) = 7.21 :=
  ⟨aaCount_seqC2, molecularWeight_seqC2, molarExtinction_seqC2,
    massExtinction_seqC2, pI_seqC2⟩

end ProteinProps
